import Mathlib

/-!
Verification of the job admission-and-lifecycle subsystem of the `unlayered`
repository (backend/app/services/job_store.py, backend/app/api/separation.py,
backend/app/services/system_detector.py).

Modelling conventions, chosen to mirror the Python source:
* the `JobStore._jobs` dict is a `List Job` in insertion order; updating an
  existing key keeps its position (`insertJob`), a fresh key is appended,
  exactly as a Python dict behaves.  The dict invariant (one entry per key) is
  carried as a `Nodup` hypothesis where a theorem needs it.
* `datetime` values are a seven-field record; `isoformat`/`fromisoformat` are
  implemented concretely on character lists, covering exactly the strings the
  store writes (`datetime.isoformat` of a naive datetime).
* numeric fields (`progress`, `processing_time`, GPU memory) are rationals:
  the subsystem only stores and compares these numbers, never computes with
  them, and a JSON write/read round-trips a finite float exactly.
* Python's stable `list.sort(key=...)` is modelled by a structural stable
  insertion sort `sortBy` (any two stable sorts of the same list under the
  same total preorder agree element-for-element).
* file-system effects are explicit values: a metadata write is the pair
  (output_dir, serialized dict); reading is done from such a value.
-/

namespace Unlayered

/-! ## Job status (job_store.py, class JobStatus) -/

inductive JobStatus where
  | queued
  | processing
  | completed
  | failed
deriving DecidableEq

/-- The string value of the status enum (`JobStatus.QUEUED = "queued"`, ...). -/
def JobStatus.value : JobStatus → String
  | .queued => "queued"
  | .processing => "processing"
  | .completed => "completed"
  | .failed => "failed"

/-- `JobStatus(s)`: look a status up by its value; `none` models the
`ValueError` Python raises on an unknown value. -/
def JobStatus.ofValue : String → Option JobStatus
  | "queued" => some .queued
  | "processing" => some .processing
  | "completed" => some .completed
  | "failed" => some .failed
  | _ => none

/-- `status in {JobStatus.QUEUED, JobStatus.PROCESSING}`. -/
def JobStatus.isActive : JobStatus → Bool
  | .queued => true
  | .processing => true
  | _ => false

/-- `status in {JobStatus.COMPLETED, JobStatus.FAILED}`. -/
def JobStatus.isTerminal : JobStatus → Bool
  | .completed => true
  | .failed => true
  | _ => false

/-! ## datetime -/

/-- A Python `datetime.datetime` value (naive, as produced by
`datetime.now()`). -/
structure DateTime where
  year : Nat
  month : Nat
  day : Nat
  hour : Nat
  minute : Nat
  second : Nat
  microsecond : Nat
deriving DecidableEq

/-- `datetime.min` = 0001-01-01 00:00:00. -/
def DateTime.datetimeMin : DateTime :=
  { year := 1, month := 1, day := 1, hour := 0, minute := 0, second := 0,
    microsecond := 0 }

def DateTime.toComponents (d : DateTime) : List Nat :=
  [d.year, d.month, d.day, d.hour, d.minute, d.second, d.microsecond]

/-- Lexicographic comparison of equal-length numeric lists; `datetime`
comparison in Python is exactly lexicographic on the components. -/
def lexLe : List Nat → List Nat → Bool
  | [], _ => true
  | _ :: _, [] => false
  | a :: as, b :: bs => if a < b then true else if b < a then false else lexLe as bs

/-- `d1 <= d2` on datetimes. -/
def DateTime.leB (d1 d2 : DateTime) : Bool :=
  lexLe d1.toComponents d2.toComponents

/-- Python's leap-year rule (`calendar.isleap`). -/
def isLeapYear (y : Nat) : Bool :=
  y % 4 = 0 && (y % 100 ≠ 0 || y % 400 = 0)

def daysInMonth (y m : Nat) : Nat :=
  if m = 2 then (if isLeapYear y then 29 else 28)
  else if m = 4 || m = 6 || m = 9 || m = 11 then 30
  else 31

/-- The range invariant every Python `datetime` object satisfies (enforced by
the `datetime` constructor). -/
def DateTime.validB (d : DateTime) : Bool :=
  1 ≤ d.year && d.year ≤ 9999 && 1 ≤ d.month && d.month ≤ 12 &&
  1 ≤ d.day && d.day ≤ daysInMonth d.year d.month &&
  d.hour ≤ 23 && d.minute ≤ 59 && d.second ≤ 59 && d.microsecond ≤ 999999

/-! ### isoformat printing -/

def digitChar (n : Nat) : Char := Char.ofNat (48 + n)

def pad2 (n : Nat) : List Char := [digitChar (n / 10), digitChar (n % 10)]

def pad4 (n : Nat) : List Char :=
  [digitChar (n / 1000), digitChar (n / 100 % 10), digitChar (n / 10 % 10),
   digitChar (n % 10)]

def pad6 (n : Nat) : List Char :=
  [digitChar (n / 100000), digitChar (n / 10000 % 10), digitChar (n / 1000 % 10),
   digitChar (n / 100 % 10), digitChar (n / 10 % 10), digitChar (n % 10)]

/-- `datetime.isoformat()`: `YYYY-MM-DDTHH:MM:SS`, with `.ffffff` appended
exactly when `microsecond` is nonzero. -/
def DateTime.isoChars (d : DateTime) : List Char :=
  pad4 d.year ++ '-' :: pad2 d.month ++ '-' :: pad2 d.day ++
  'T' :: pad2 d.hour ++ ':' :: pad2 d.minute ++ ':' :: pad2 d.second ++
  (if d.microsecond = 0 then [] else '.' :: pad6 d.microsecond)

def DateTime.isoformat (d : DateTime) : String := String.mk d.isoChars

/-! ### fromisoformat parsing -/

def digitVal (c : Char) : Nat := c.toNat - 48

/-- Read exactly `k` decimal digits, most significant first. -/
def parseFixed : Nat → Nat → List Char → Option (Nat × List Char)
  | 0, acc, cs => some (acc, cs)
  | _ + 1, _, [] => none
  | k + 1, acc, c :: cs =>
      if c.isDigit then parseFixed k (acc * 10 + digitVal c) cs else none

def expect (ch : Char) : List Char → Option (List Char)
  | [] => none
  | c :: cs => if c = ch then some cs else none

/-- The `YYYY-MM-DD` prefix. -/
def parseDatePart (cs : List Char) : Option (Nat × Nat × Nat × List Char) := do
  let (y, cs) ← parseFixed 4 0 cs
  let cs ← expect '-' cs
  let (mo, cs) ← parseFixed 2 0 cs
  let cs ← expect '-' cs
  let (dd, cs) ← parseFixed 2 0 cs
  some (y, mo, dd, cs)

/-- The optional `.ffffff` suffix: empty means zero microseconds. -/
def parseMicroPart : List Char → Option Nat
  | [] => some 0
  | c :: rest =>
      if c = '.' then
        match parseFixed 6 0 rest with
        | some (us, []) => some us
        | _ => none
      else none

/-- The `HH:MM:SS[.ffffff]` suffix. -/
def parseTimePart (cs : List Char) : Option (Nat × Nat × Nat × Nat) := do
  let (hh, cs) ← parseFixed 2 0 cs
  let cs ← expect ':' cs
  let (mi, cs) ← parseFixed 2 0 cs
  let cs ← expect ':' cs
  let (ss, cs) ← parseFixed 2 0 cs
  let us ← parseMicroPart cs
  some (hh, mi, ss, us)

/-- `datetime.fromisoformat` restricted to the grammar `isoformat` emits
(which is the only shape this subsystem ever writes or reads back); it
validates component ranges exactly as the `datetime` constructor does and
fails (Python: raises `ValueError`) otherwise. -/
def parseIsoChars (cs : List Char) : Option DateTime := do
  let (y, mo, dd, cs) ← parseDatePart cs
  let cs ← expect 'T' cs
  let (hh, mi, ss, us) ← parseTimePart cs
  let d : DateTime :=
    { year := y, month := mo, day := dd, hour := hh, minute := mi,
      second := ss, microsecond := us }
  if d.validB then some d else none

def DateTime.fromisoformat (s : String) : Option DateTime :=
  parseIsoChars s.data

/-! ## Job record (job_store.py, @dataclass Job) -/

structure Job where
  job_id : String
  filename : String
  status : JobStatus
  progress : ℚ := 0
  model_used : Option String := none
  created_at : Option DateTime := none
  started_at : Option DateTime := none
  completed_at : Option DateTime := none
  input_path : Option String := none
  output_dir : Option String := none
  stems : Option (List (String × Option String)) := none
  error_message : Option String := none
  processing_time : Option ℚ := none
deriving DecidableEq

/-- All datetimes present on the record are in the ranges the Python
`datetime` constructor enforces — an invariant every real `Job` satisfies by
construction. -/
def Job.validTimesB (j : Job) : Bool :=
  j.created_at.all DateTime.validB && j.started_at.all DateTime.validB &&
  j.completed_at.all DateTime.validB

/-- The JSON object written to `metadata.json`: the flat dict produced by
`Job.to_dict` (all thirteen keys present, datetimes as ISO strings, status as
its value string). -/
structure MetaDict where
  job_id : String
  filename : String
  status : String
  progress : ℚ
  model_used : Option String
  created_at : Option String
  started_at : Option String
  completed_at : Option String
  input_path : Option String
  output_dir : Option String
  stems : Option (List (String × Option String))
  error_message : Option String
  processing_time : Option ℚ
deriving DecidableEq

/-- `Job.to_dict`: `asdict(self)` with the three datetimes ISO-formatted and
the status replaced by its value string. -/
def Job.to_dict (j : Job) : MetaDict :=
  { job_id := j.job_id
    filename := j.filename
    status := j.status.value
    progress := j.progress
    model_used := j.model_used
    created_at := j.created_at.map DateTime.isoformat
    started_at := j.started_at.map DateTime.isoformat
    completed_at := j.completed_at.map DateTime.isoformat
    input_path := j.input_path
    output_dir := j.output_dir
    stems := j.stems
    error_message := j.error_message
    processing_time := j.processing_time }

/-- `if data.get(key): data[key] = datetime.fromisoformat(data[key])`.
A missing/null value stays `none`; a parse failure is the `ValueError` the
caller catches, and the one falsy string (`""`) — which Python would leave in
place, producing a record whose datetime field holds a string — is mapped to
the same failure, the only honest rendering in a typed record. -/
def parseOptDate : Option String → Option (Option DateTime)
  | none => some none
  | some s => (DateTime.fromisoformat s).map some

/-- `Job.from_dict`: convert ISO strings back to datetimes and the status
string back to the enum, then rebuild the record; `none` models the exception
path (`ValueError` from `JobStatus(...)` or `fromisoformat`). -/
def Job.from_dict (md : MetaDict) : Option Job := do
  let created ← parseOptDate md.created_at
  let started ← parseOptDate md.started_at
  let completed ← parseOptDate md.completed_at
  let st ← JobStatus.ofValue md.status
  some
    { job_id := md.job_id
      filename := md.filename
      status := st
      progress := md.progress
      model_used := md.model_used
      created_at := created
      started_at := started
      completed_at := completed
      input_path := md.input_path
      output_dir := md.output_dir
      stems := md.stems
      error_message := md.error_message
      processing_time := md.processing_time }

/-! ## Stable sort (Python `list.sort(key=...)`)

Python's sort is stable; `sortBy` is a structural stable insertion sort,
which agrees with it on every list. -/

def insertSorted (le : α → α → Bool) (a : α) : List α → List α
  | [] => [a]
  | b :: l => if le a b then a :: b :: l else b :: insertSorted le a l

def sortBy (le : α → α → Bool) : List α → List α
  | [] => []
  | a :: l => insertSorted le a (sortBy le l)

/-! ## The job store (job_store.py, class JobStore)

The `_jobs` dict is the list of its values in insertion order.  Each method
that touches the dict is a function of that list; methods that in Python
return a value and mutate the store return a pair. -/

/-- The store: `self._jobs.values()` in insertion order. -/
abbrev Store := List Job

namespace JobStore

/-- `JobStore._max_history`. -/
def max_history : Nat := 1000

/-- `self._jobs[job.job_id] = job` on a dict: replace in place if the key is
present, else append. -/
def insertJob : Store → Job → Store
  | [], j => [j]
  | x :: xs, j => if x.job_id = j.job_id then j :: xs else x :: insertJob xs j

/-- `self._jobs.get(job_id)` (also `JobStore.get`). -/
def get (s : Store) (job_id : String) : Option Job :=
  s.find? fun j => decide (j.job_id = job_id)

/-- The count of jobs whose status is QUEUED or PROCESSING, as computed inside
`try_add_with_capacity`. -/
def activeCount (s : Store) : Nat :=
  s.countP fun j => j.status.isActive

/-- The sort key of `_prune_history`:
`job.completed_at or job.created_at or datetime.min` (datetimes are always
truthy, `None` is falsy). -/
def pruneKey (j : Job) : DateTime :=
  ((j.completed_at).or j.created_at).getD DateTime.datetimeMin

def pruneLe (a b : Job) : Bool := (pruneKey a).leB (pruneKey b)

/-- The `removable` list of `_prune_history`: the COMPLETED/FAILED jobs in
store order. -/
def removableOf (s : Store) : Store :=
  s.filter fun j => j.status.isTerminal

/-- `removable.sort(key=...)` then `removable[:to_remove]` with
`to_remove = len(self._jobs) - self._max_history`. -/
def victimsOf (s : Store) : Store :=
  (sortBy pruneLe (removableOf s)).take (s.length - max_history)

/-- `JobStore._prune_history`: when over `_max_history`, sort the
COMPLETED/FAILED jobs by `pruneKey` ascending (stably, like `list.sort`) and
pop the first `len(self._jobs) - _max_history` of them from the dict. -/
def prune_history (s : Store) : Store :=
  if s.length ≤ max_history then s
  else if (removableOf s).isEmpty then s
  else s.filter fun j => !(((victimsOf s).map Job.job_id).contains j.job_id)

/-- `JobStore.add`: unconditional insert followed by the eviction pass. -/
def add (s : Store) (j : Job) : Store :=
  prune_history (insertJob s j)

/-- `JobStore.try_add_with_capacity`: atomic count-then-insert; returns
`(added, active_count_before_add)` together with the new store. -/
def try_add_with_capacity (s : Store) (j : Job) (max_concurrent_jobs : Nat) :
    (Bool × Nat) × Store :=
  let active_count := activeCount s
  if max_concurrent_jobs ≤ active_count then ((false, active_count), s)
  else ((true, active_count), prune_history (insertJob s j))

/-- A sequence of capacity-gated submissions at one fixed limit with no other
mutation interleaved: the stores observed after each call. -/
def runTryAdds (limit : Nat) : List Job → Store → List Store
  | [], _ => []
  | j :: js, s =>
      let s' := (try_add_with_capacity s j limit).2
      s' :: runTryAdds limit js s'

/-- The keyword arguments of `JobStore.update`; a `none` field was not
supplied. -/
structure UpdateFields where
  status : Option JobStatus := none
  progress : Option ℚ := none
  model_used : Option String := none
  started_at : Option DateTime := none
  completed_at : Option DateTime := none
  stems : Option (List (String × Option String)) := none
  error_message : Option String := none
  processing_time : Option ℚ := none

/-- The field-by-field mutation `update` performs on the job it found:
each supplied (non-`None`) argument overwrites the field. -/
def applyUpdate (j : Job) (u : UpdateFields) : Job :=
  { j with
    status := u.status.getD j.status
    progress := u.progress.getD j.progress
    model_used := (u.model_used).or j.model_used
    started_at := (u.started_at).or j.started_at
    completed_at := (u.completed_at).or j.completed_at
    stems := (u.stems).or j.stems
    error_message := (u.error_message).or j.error_message
    processing_time := (u.processing_time).or j.processing_time }

/-- `JobStore.update`: mutate the found job in place (the dict keeps its key)
then run the eviction pass; unknown id returns `None` and leaves the store
unchanged. -/
def update (s : Store) (job_id : String) (u : UpdateFields) :
    Option Job × Store :=
  match get s job_id with
  | none => (none, s)
  | some j =>
      let j' := applyUpdate j u
      (some j', prune_history (insertJob s j'))

/-- `JobStore.delete`: `del self._jobs[job_id]` when present (no eviction pass
runs here). -/
def delete (s : Store) (job_id : String) : Bool × Store :=
  if (get s job_id).isSome then
    (true, s.filter fun j => !(decide (j.job_id = job_id)))
  else (false, s)

/-- `JobStore.count`. -/
def count (s : Store) (status : Option JobStatus) : Nat :=
  match status with
  | none => s.length
  | some st => s.countP fun j => decide (j.status = st)

/-- `JobStore.save_metadata`: look the job up, require an `output_dir`, and
write `json.dump(job.to_dict())` to `output_dir/metadata.json`.  The model
returns the write — the target directory and the serialized dict — or `none`
when the method returns `False` having written nothing. -/
def save_metadata (s : Store) (job_id : String) : Option (String × MetaDict) :=
  match get s job_id with
  | none => none
  | some j =>
      match j.output_dir with
      | none => none
      | some dir => some (dir, j.to_dict)

/-- `JobStore.load_metadata`: `file` is the content of
`output_dir/metadata.json` (`none` when the file does not exist).  An embedded
`job_id` differing from the requested one rejects the load; a `from_dict`
failure is the caught exception; on success the job is re-inserted via
`add`. -/
def load_metadata (job_id : String) (file : Option MetaDict) (s : Store) :
    Option Job × Store :=
  match file with
  | none => (none, s)
  | some md =>
      if md.job_id ≠ job_id then (none, s)
      else
        match Job.from_dict md with
        | none => (none, s)
        | some j => (some j, add s j)

/-- One entry of `root_output_dir.iterdir()`: its name, whether it is a
directory, and the content of a `metadata.json` inside it, if any. -/
structure DirEntry where
  name : String
  isDir : Bool
  meta : Option MetaDict

/-- The body of the `load_from_disk` scan loop for one directory entry:
skip non-directories and names whose length is not 36, otherwise attempt
`load_metadata` and count a success. -/
def loadStep (acc : Nat × Store) (e : DirEntry) : Nat × Store :=
  if !e.isDir then acc
  else if e.name.length ≠ 36 then acc
  else
    match load_metadata e.name e.meta acc.2 with
    | (some _, s') => (acc.1 + 1, s')
    | (none, s') => (acc.1, s')

/-- `JobStore.load_from_disk`: `none` for a missing root; otherwise scan the
immediate entries with `loadStep`, returning the number of successful loads
and the resulting store. -/
def load_from_disk (root : Option (List DirEntry)) (s : Store) : Nat × Store :=
  match root with
  | none => (0, s)
  | some entries => entries.foldl loadStep (0, s)

end JobStore

/-! ## Capability provider (system_detector.py) -/

/-- `SystemCapabilities` dataclass. -/
structure SystemCapabilities where
  has_gpu : Bool
  gpu_name : Option String
  gpu_memory_gb : Option ℚ
  system_memory_gb : ℚ
  cpu_cores : Nat
  recommended_model : String
  recommended_segment : Option Nat
  max_concurrent_jobs : Nat
  device : String
deriving DecidableEq

/-- `SystemDetector.validate_model_for_system`.  The result is
`(is_valid, error_message)`; `none` models the `TypeError` Python raises on
`None < 7.0` when `gpu_memory_gb` is `None` yet `has_gpu` is set.  The
interpolated number in the VRAM message is abstracted away; no claim
concerns message text. -/
def validate_model_for_system (model : String) (c : SystemCapabilities) :
    Option (Bool × Option String) :=
  if model = "htdemucs_6s" then
    if c.has_gpu = false then
      some (false, some "6-stem model requires GPU, but system has CPU only")
    else
      match c.gpu_memory_gb with
      | none => none
      | some m =>
          if m < 7 then
            some (false, some "6-stem model requires 7GB+ VRAM")
          else some (true, none)
  else if model = "htdemucs_ft" ∧ c.has_gpu = false then
    some (false,
      some "Fine-tuned model works best with GPU, consider using standard htdemucs on CPU")
  else some (true, none)

/-! ## Lifecycle orchestrator (separation.py, process_separation_job)

The worker (Demucs) is external: a run is parameterized by the outcome of its
two suspension points — construction (`DemucsService(...)`) and invocation
(`separate_audio`) — plus the wall-clock values read during the run.  The
whole body sits in one `try/except Exception`, so the function itself always
returns normally; its model is a total function. -/

structure WorkerEnv where
  /-- Outcome of `DemucsService(...)`: `Except.error d` is an exception with
  `str(e) = d`. -/
  initResult : Except String Unit
  /-- Outcome of `demucs_service.separate_audio`: on success the stems
  mapping (stem name to path-or-`None`), already string-converted. -/
  sepResult : Except String (List (String × Option String))
  startedAt : DateTime
  completedAt : DateTime
  processingTime : ℚ

/-- The metadata files on disk: output directory ↦ content of its
`metadata.json`. -/
abbrev Files := List (String × MetaDict)

def insertFile : Files → String → MetaDict → Files
  | [], dir, md => [(dir, md)]
  | f :: fs, dir, md =>
      if f.1 = dir then (dir, md) :: fs else f :: insertFile fs dir md

def readFile (fs : Files) (dir : String) : Option MetaDict :=
  (fs.find? fun f => decide (f.1 = dir)).map Prod.snd

/-- `job_store.save_metadata(job_id)` including its file-system effect. -/
def save_metadata_fs (s : Store) (job_id : String) (fs : Files) : Files :=
  match JobStore.save_metadata s job_id with
  | none => fs
  | some (dir, md) => insertFile fs dir md

/-- Step 1 of `process_separation_job`: mark PROCESSING, progress 0.1. -/
def markProcessing (env : WorkerEnv) (job_id : String) (s : Store) : Store :=
  (JobStore.update s job_id
    { status := some .processing, started_at := some env.startedAt,
      progress := some (1 / 10) }).2

/-- The `except Exception` branch: mark FAILED with `error_message = str(e)`,
stamp `completed_at`, save metadata. -/
def failJob (env : WorkerEnv) (job_id : String) (e : String) (s : Store)
    (fs : Files) : Store × Files :=
  let s' := (JobStore.update s job_id
    { status := some .failed, error_message := some e,
      completed_at := some env.completedAt }).2
  (s', save_metadata_fs s' job_id fs)

/-- The success tail: mark COMPLETED with stems, duration, progress 1.0, save
metadata. -/
def completeJob (env : WorkerEnv) (job_id : String)
    (stems : List (String × Option String)) (s : Store) (fs : Files) :
    Store × Files :=
  let s' := (JobStore.update s job_id
    { status := some .completed, completed_at := some env.completedAt,
      stems := some stems, progress := some 1,
      processing_time := some env.processingTime }).2
  (s', save_metadata_fs s' job_id fs)

/-- `process_separation_job(job_id, ...)` as a function of the worker
outcome. -/
def process_separation_job (env : WorkerEnv) (job_id : String) (s : Store)
    (fs : Files) : Store × Files :=
  let s1 := markProcessing env job_id s
  match JobStore.get s1 job_id with
  | none => (s1, fs)
  | some _ =>
      match env.initResult with
      | .error e => failJob env job_id e s1 fs
      | .ok _ =>
          let s2 := (JobStore.update s1 job_id { progress := some (2 / 10) }).2
          match env.sepResult with
          | .error e => failJob env job_id e s2 fs
          | .ok stems => completeJob env job_id stems s2 fs

/-! ## Canonical identifier syntax

Modelled from the spec: the canonical identifier is the 36-character textual
form of a UUID — eight, four, four, four and twelve lowercase hexadecimal
digits joined by hyphens at positions 8, 13, 18 and 23 (`str(uuid.uuid4())`).
The source has no such validator (`load_from_disk` checks only the length),
which is what claim C9 is about. -/

def isLowerHexDigit (c : Char) : Bool :=
  c.isDigit || (97 ≤ c.toNat && c.toNat ≤ 102)

def isCanonicalIdentifier (s : String) : Bool :=
  s.length = 36 &&
  (List.range 36).all fun i =>
    let c := s.data.getD i ' '
    if i = 8 || i = 13 || i = 18 || i = 23 then c = '-' else isLowerHexDigit c

/-! ## Concrete fixtures for witnesses and counterexamples -/

/-- Distinct short job ids (codepoints 256, 257, ...). -/
def mkId (i : Nat) : String := String.mk [Char.ofNat (256 + i)]

/-- A minimal QUEUED job with id `mkId i`. -/
def mkQueuedJob (i : Nat) : Job :=
  { job_id := mkId i, filename := "song.mp3", status := .queued }

/-- A store holding 1000 QUEUED jobs (exactly at `_max_history`). -/
def store1000 : Store := (List.range 1000).map mkQueuedJob

/-- A store holding 1001 QUEUED jobs (over `_max_history`; reachable, since
the eviction pass never removes active jobs). -/
def store1001 : Store := (List.range 1001).map mkQueuedJob

/-- A COMPLETED job with a fresh id. -/
def doneJobX : Job :=
  { job_id := "x", filename := "song.mp3", status := .completed,
    completed_at := some ⟨2024, 5, 1, 12, 0, 0, 0⟩ }

/-- A COMPLETED job reusing the id of `mkQueuedJob 5`. -/
def doneJobDup : Job :=
  { job_id := mkId 5, filename := "song.mp3", status := .completed,
    completed_at := some ⟨2024, 5, 1, 12, 0, 0, 0⟩ }

/-- A COMPLETED job with id "t", used by the delete counterexample. -/
def doneJobT : Job :=
  { job_id := "t", filename := "song.mp3", status := .completed,
    completed_at := some ⟨2024, 5, 1, 12, 0, 0, 0⟩ }

/-- 1000 QUEUED jobs plus one COMPLETED job: over the cap with one terminal
job. -/
def store1000T : Store := store1000 ++ [doneJobT]

/-- A fully populated job for round-trip witnesses. -/
def richJob : Job :=
  { job_id := "11111111-2222-3333-4444-555555555555"
    filename := "song.mp3"
    status := .completed
    progress := 1
    model_used := some "htdemucs"
    created_at := some ⟨2024, 5, 1, 11, 58, 3, 0⟩
    started_at := some ⟨2024, 5, 1, 11, 59, 30, 123456⟩
    completed_at := some ⟨2024, 5, 1, 12, 4, 59, 7⟩
    input_path := some "/data/uploads/x/song.mp3"
    output_dir := some "/data/output/x"
    stems := some [("vocals", some "/data/output/x/vocals.wav"), ("guitar", none)]
    error_message := none
    processing_time := some 330 }

/-- A 36-character directory name that is not a canonical identifier. -/
def zName : String := String.mk (List.replicate 36 'z')

/-- A valid metadata file whose embedded id is `zName`. -/
def zMeta : MetaDict :=
  { job_id := zName, filename := "song.mp3", status := "queued", progress := 0,
    model_used := none, created_at := none, started_at := none,
    completed_at := none, input_path := none, output_dir := none,
    stems := none, error_message := none, processing_time := none }

/-- A QUEUED job with stems unset and an output directory, for the
orchestrator theorems. -/
def queuedJobQ : Job :=
  { job_id := "q", filename := "song.mp3", status := .queued,
    created_at := some ⟨2024, 5, 1, 11, 58, 3, 0⟩,
    input_path := some "/data/uploads/q/song.mp3",
    output_dir := some "/data/output/q" }

/-- A GPU snapshot as `detect_capabilities` would build for an 8 GB card. -/
def baseCaps : SystemCapabilities :=
  { has_gpu := true, gpu_name := some "NVIDIA GeForce RTX", gpu_memory_gb := some 8,
    system_memory_gb := 32, cpu_cores := 8, recommended_model := "htdemucs_6s",
    recommended_segment := none, max_concurrent_jobs := 1, device := "cuda" }

/-- The snapshot with 6.9 GB of GPU memory. -/
def cap69 : SystemCapabilities := { baseCaps with gpu_memory_gb := some (69 / 10) }

/-- The snapshot with 7.0 GB of GPU memory. -/
def cap70 : SystemCapabilities := { baseCaps with gpu_memory_gb := some 7 }

/-- A snapshot with a GPU flag but no recorded GPU memory — expressible in
the `SystemCapabilities` dataclass, though `detect_capabilities` never
produces it. -/
def capNoMem : SystemCapabilities := { baseCaps with gpu_memory_gb := none }

/-- A CPU-only snapshot. -/
def capCpu : SystemCapabilities :=
  { baseCaps with
    has_gpu := false
    gpu_name := none
    gpu_memory_gb := none
    recommended_model := "htdemucs"
    device := "cpu" }

/-- A worker environment whose construction step faults with description
`e`. -/
def faultingEnv (e : String) : WorkerEnv :=
  { initResult := .error e, sepResult := .ok [],
    startedAt := ⟨2024, 5, 1, 11, 59, 30, 0⟩,
    completedAt := ⟨2024, 5, 1, 12, 0, 0, 0⟩, processingTime := 30 }

/-! ## Lemmas: lexicographic comparison -/

theorem lexLe_cons (a b : Nat) (as bs : List Nat) :
    lexLe (a :: as) (b :: bs) =
      (if a < b then true else if b < a then false else lexLe as bs) := rfl

theorem lexLe_total : ∀ as bs : List Nat, lexLe as bs = true ∨ lexLe bs as = true
  | [], _ => Or.inl rfl
  | _ :: _, [] => Or.inr rfl
  | a :: as, b :: bs => by
      rcases Nat.lt_trichotomy a b with h | h | h
      · left; rw [lexLe_cons, if_pos h]
      · subst h
        rcases lexLe_total as bs with ih | ih
        · left; rw [lexLe_cons, if_neg (Nat.lt_irrefl a), if_neg (Nat.lt_irrefl a)]
          exact ih
        · right; rw [lexLe_cons, if_neg (Nat.lt_irrefl a), if_neg (Nat.lt_irrefl a)]
          exact ih
      · right; rw [lexLe_cons, if_pos h]

theorem lexLe_trans : ∀ as bs cs : List Nat, lexLe as bs = true →
    lexLe bs cs = true → lexLe as cs = true
  | [], _, _, _, _ => rfl
  | _ :: _, [], _, h1, _ => by simp [lexLe] at h1
  | _ :: _, _ :: _, [], _, h2 => by simp [lexLe] at h2
  | a :: as, b :: bs, c :: cs, h1, h2 => by
      rw [lexLe_cons] at h1 h2 ⊢
      by_cases hab : a < b
      · have hbc : b ≤ c := by
          by_contra hc
          rw [if_neg (by omega), if_pos (by omega)] at h2
          exact Bool.false_ne_true h2
        rw [if_pos (by omega)]
      · by_cases hba : b < a
        · rw [if_neg hab, if_pos hba] at h1; exact absurd h1 Bool.false_ne_true
        · have hab' : a = b := by omega
          subst hab'
          rw [if_neg (Nat.lt_irrefl a), if_neg (Nat.lt_irrefl a)] at h1
          by_cases hac : a < c
          · rw [if_pos hac]
          · by_cases hca : c < a
            · rw [if_neg hac, if_pos hca] at h2
              exact absurd h2 Bool.false_ne_true
            · rw [if_neg hac, if_neg hca] at h2 ⊢
              exact lexLe_trans as bs cs h1 h2

theorem pruneLe_total (a b : Job) :
    JobStore.pruneLe a b = true ∨ JobStore.pruneLe b a = true :=
  lexLe_total _ _

theorem pruneLe_trans {a b c : Job} (h1 : JobStore.pruneLe a b = true)
    (h2 : JobStore.pruneLe b c = true) : JobStore.pruneLe a c = true :=
  lexLe_trans _ _ _ h1 h2

/-! ## Lemmas: stable insertion sort -/

theorem mem_insertSorted {le : α → α → Bool} {a x : α} :
    ∀ l : List α, x ∈ insertSorted le a l ↔ x = a ∨ x ∈ l
  | [] => by simp [insertSorted]
  | b :: l => by
      by_cases h : le a b
      · simp [insertSorted, h]
      · simp only [insertSorted, if_neg h, List.mem_cons, mem_insertSorted l]
        tauto

theorem insertSorted_perm (le : α → α → Bool) (a : α) :
    ∀ l : List α, List.Perm (insertSorted le a l) (a :: l)
  | [] => List.Perm.refl _
  | b :: l => by
      by_cases h : le a b
      · simp [insertSorted, h]
      · rw [insertSorted, if_neg h]
        exact ((insertSorted_perm le a l).cons b).trans (List.Perm.swap a b l)

theorem sortBy_perm (le : α → α → Bool) :
    ∀ l : List α, List.Perm (sortBy le l) l
  | [] => List.Perm.refl _
  | a :: l =>
      (insertSorted_perm le a (sortBy le l)).trans ((sortBy_perm le l).cons a)

theorem pairwise_insertSorted {le : α → α → Bool}
    (htrans : ∀ x y z, le x y = true → le y z = true → le x z = true)
    (htotal : ∀ x y, le x y = true ∨ le y x = true) (a : α) :
    ∀ {l : List α}, List.Pairwise (fun x y => le x y = true) l →
      List.Pairwise (fun x y => le x y = true) (insertSorted le a l)
  | [], _ => by simp [insertSorted]
  | b :: l, h => by
      rw [List.pairwise_cons] at h
      by_cases hab : le a b
      · rw [insertSorted, if_pos hab, List.pairwise_cons]
        refine ⟨?_, List.pairwise_cons.2 h⟩
        intro x hx
        rcases List.mem_cons.1 hx with rfl | hx
        · exact hab
        · exact htrans a b x hab (h.1 x hx)
      · rw [insertSorted, if_neg hab, List.pairwise_cons]
        refine ⟨?_, pairwise_insertSorted htrans htotal a h.2⟩
        intro x hx
        rcases (mem_insertSorted _).1 hx with rfl | hx
        · rcases htotal x b with hxb | hbx
          · exact absurd hxb hab
          · exact hbx
        · exact h.1 x hx

theorem pairwise_sortBy {le : α → α → Bool}
    (htrans : ∀ x y z, le x y = true → le y z = true → le x z = true)
    (htotal : ∀ x y, le x y = true ∨ le y x = true) :
    ∀ l : List α, List.Pairwise (fun x y => le x y = true) (sortBy le l)
  | [] => List.Pairwise.nil
  | a :: l => pairwise_insertSorted htrans htotal a (pairwise_sortBy htrans htotal l)

/-! ## Lemmas: the store dict -/

namespace JobStore

theorem get_mem {s : Store} {id : String} {j : Job} (h : get s id = some j) :
    j ∈ s := by
  unfold get at h
  exact List.mem_of_find?_eq_some h

theorem get_id {s : Store} {id : String} {j : Job} (h : get s id = some j) :
    j.job_id = id := by
  unfold get at h
  have hp := List.find?_some h
  exact of_decide_eq_true hp

theorem get_insertJob_self (j : Job) :
    ∀ s : Store, get (insertJob s j) j.job_id = some j
  | [] => by simp [insertJob, get, List.find?]
  | x :: xs => by
      by_cases h : x.job_id = j.job_id
      · simp [insertJob, h, get, List.find?]
      · rw [insertJob, if_neg h]
        have ih := get_insertJob_self j xs
        simp only [get, List.find?] at ih ⊢
        rw [decide_eq_false h]
        exact ih

theorem mem_insertJob_self (j : Job) (s : Store) : j ∈ insertJob s j :=
  get_mem (get_insertJob_self j s)

theorem length_insertJob_le (j : Job) :
    ∀ s : Store, (insertJob s j).length ≤ s.length + 1
  | [] => by simp [insertJob]
  | x :: xs => by
      by_cases h : x.job_id = j.job_id
      · simp [insertJob, h]
      · rw [insertJob, if_neg h]
        have := length_insertJob_le j xs
        simp only [List.length_cons]
        omega

theorem length_insertJob_of_key_mem (j : Job) :
    ∀ s : Store, j.job_id ∈ s.map Job.job_id →
      (insertJob s j).length = s.length
  | [], h => by simp at h
  | x :: xs, h => by
      by_cases hx : x.job_id = j.job_id
      · simp [insertJob, hx]
      · rw [insertJob, if_neg hx]
        simp only [List.map_cons, List.mem_cons] at h
        rcases h with h | h
        · exact absurd h.symm hx
        · simp only [List.length_cons, length_insertJob_of_key_mem j xs h]

theorem keys_insertJob_subset (j : Job) :
    ∀ (s : Store), ∀ k ∈ (insertJob s j).map Job.job_id,
      k = j.job_id ∨ k ∈ s.map Job.job_id
  | [], k, hk => by simpa [insertJob] using hk
  | x :: xs, k, hk => by
      by_cases h : x.job_id = j.job_id
      · rw [insertJob, if_pos h] at hk
        simp only [List.map_cons, List.mem_cons] at hk ⊢
        tauto
      · rw [insertJob, if_neg h] at hk
        simp only [List.map_cons, List.mem_cons] at hk ⊢
        rcases hk with hk | hk
        · tauto
        · rcases keys_insertJob_subset j xs k hk with hk | hk <;> tauto

theorem nodup_keys_insertJob (j : Job) :
    ∀ s : Store, ((s.map Job.job_id).Nodup) →
      ((insertJob s j).map Job.job_id).Nodup
  | [], _ => by simp [insertJob]
  | x :: xs, h => by
      simp only [List.map_cons, List.nodup_cons] at h
      by_cases hx : x.job_id = j.job_id
      · rw [insertJob, if_pos hx]
        simp only [List.map_cons, List.nodup_cons]
        exact ⟨by rw [← hx]; exact h.1, h.2⟩
      · rw [insertJob, if_neg hx]
        simp only [List.map_cons, List.nodup_cons]
        refine ⟨?_, nodup_keys_insertJob j xs h.2⟩
        intro hmem
        rcases keys_insertJob_subset j xs _ hmem with hk | hk
        · exact hx hk
        · exact h.1 hk

theorem not_terminal_of_active {st : JobStatus} (h : st.isActive = true) :
    st.isTerminal = false := by
  cases st <;> simp_all [JobStatus.isActive, JobStatus.isTerminal]

theorem mem_victimsOf {s : Store} {v : Job} (hv : v ∈ victimsOf s) :
    v ∈ s ∧ v.status.isTerminal = true := by
  have h1 : v ∈ sortBy pruneLe (removableOf s) := List.mem_of_mem_take hv
  have h2 : v ∈ removableOf s := ((sortBy_perm _ _).mem_iff).1 h1
  exact ⟨(List.mem_filter.1 h2).1, (List.mem_filter.1 h2).2⟩

theorem nodup_keys_victimsOf {s : Store} (hnd : (s.map Job.job_id).Nodup) :
    ((victimsOf s).map Job.job_id).Nodup := by
  have h1 : ((removableOf s).map Job.job_id).Nodup :=
    ((List.filter_sublist s).map Job.job_id).nodup hnd
  have h2 : ((sortBy pruneLe (removableOf s)).map Job.job_id).Nodup :=
    (((sortBy_perm pruneLe (removableOf s)).map Job.job_id).nodup_iff).2 h1
  exact ((List.take_sublist _ _).map Job.job_id).nodup h2

theorem contains_keys_iff {V : List String} {k : String} :
    V.contains k = true ↔ k ∈ V := by
  rw [List.contains_iff_exists_mem_beq]
  constructor
  · rintro ⟨x, hx, hbeq⟩
    rwa [show k = x from eq_of_beq hbeq]
  · intro h
    exact ⟨k, h, by simp⟩

theorem not_victimId_of_active {s : Store} (hnd : (s.map Job.job_id).Nodup)
    {j : Job} (hj : j ∈ s) (ha : j.status.isActive = true) :
    ((victimsOf s).map Job.job_id).contains j.job_id = false := by
  by_contra hc
  rw [Bool.not_eq_false, contains_keys_iff] at hc
  rcases List.mem_map.1 hc with ⟨v, hv, hvid⟩
  have hvs := mem_victimsOf hv
  have : v = j := List.inj_on_of_nodup_map hnd hvs.1 hj hvid
  subst this
  rw [not_terminal_of_active ha] at hvs
  exact Bool.false_ne_true hvs.2

theorem prune_history_eq_of_le {s : Store} (h : s.length ≤ max_history) :
    prune_history s = s := by
  rw [prune_history, if_pos h]

theorem prune_history_eq_of_isEmpty {s : Store}
    (h2 : (removableOf s).isEmpty = true) : prune_history s = s := by
  rw [prune_history]
  split_ifs with h1
  · rfl
  · rfl

theorem prune_history_eq_filter {s : Store} (h1 : ¬ s.length ≤ max_history)
    (h2 : ¬ (removableOf s).isEmpty = true) :
    prune_history s =
      s.filter fun j => !(((victimsOf s).map Job.job_id).contains j.job_id) := by
  rw [prune_history, if_neg h1, if_neg h2]

theorem prune_history_sublist (s : Store) :
    List.Sublist (prune_history s) s := by
  rw [prune_history]
  split_ifs
  · exact List.Sublist.refl s
  · exact List.Sublist.refl s
  · exact List.filter_sublist s

theorem mem_prune_history_of_active {s : Store}
    (hnd : (s.map Job.job_id).Nodup) {j : Job} (hj : j ∈ s)
    (ha : j.status.isActive = true) : j ∈ prune_history s := by
  rw [prune_history]
  split_ifs
  · exact hj
  · exact hj
  · exact List.mem_filter.2 ⟨hj, by rw [not_victimId_of_active hnd hj ha]; rfl⟩

theorem find?_filter_of_pred {p q : α → Bool} :
    ∀ {l : List α} {a : α}, l.find? q = some a → p a = true →
      (l.filter p).find? q = some a
  | [], a, h, _ => by simp [List.find?] at h
  | x :: xs, a, h, hp => by
      by_cases hq : q x = true
      · rw [List.find?_cons_of_pos xs hq] at h
        have hax : x = a := by injection h
        subst hax
        rw [List.filter_cons_of_pos hp, List.find?_cons_of_pos _ hq]
      · rw [List.find?_cons_of_neg xs hq] at h
        by_cases hpx : p x = true
        · rw [List.filter_cons_of_pos hpx, List.find?_cons_of_neg _ hq]
          exact find?_filter_of_pred h hp
        · rw [List.filter_cons_of_neg (by simpa using hpx)]
          exact find?_filter_of_pred h hp

theorem get_prune_history_of_active {s : Store} {id : String} {j : Job}
    (hnd : (s.map Job.job_id).Nodup) (h : get s id = some j)
    (ha : j.status.isActive = true) : get (prune_history s) id = some j := by
  have hj := get_mem h
  rw [prune_history]
  split_ifs
  · exact h
  · exact h
  · unfold get at h ⊢
    exact find?_filter_of_pred h (by rw [not_victimId_of_active hnd hj ha]; rfl)

theorem activeCount_prune_history_le (s : Store) :
    activeCount (prune_history s) ≤ activeCount s :=
  (prune_history_sublist s).countP_le _

theorem countP_contains_keys :
    ∀ (s : Store) (K : List String), (s.map Job.job_id).Nodup → K.Nodup →
      (∀ k ∈ K, k ∈ s.map Job.job_id) →
      s.countP (fun j => K.contains j.job_id) = K.length
  | [], K, _, _, hsub => by
      have : K = [] := List.eq_nil_iff_forall_not_mem.2 fun k hk => by
        simpa using hsub k hk
      simp [this]
  | x :: xs, K, hnd, hKnd, hsub => by
      simp only [List.map_cons, List.nodup_cons] at hnd
      by_cases hx : K.contains x.job_id = true
      · have hxK : x.job_id ∈ K := contains_keys_iff.1 hx
        have hKpos : 0 < K.length := List.length_pos.2 fun hK => by simp [hK] at hxK
        have hsub' : ∀ k ∈ K.erase x.job_id, k ∈ xs.map Job.job_id := by
          intro k hk
          have hk' := (hKnd.mem_erase_iff).1 hk
          rcases List.mem_cons.1 (hsub k hk'.2) with hk2 | hk2
          · exact absurd hk2 hk'.1
          · exact hk2
        have hcong : xs.countP (fun j => K.contains j.job_id) =
            xs.countP (fun j => (K.erase x.job_id).contains j.job_id) := by
          apply List.countP_congr
          intro j hj
          have hne : j.job_id ≠ x.job_id := fun he =>
            hnd.1 (he ▸ List.mem_map_of_mem Job.job_id hj)
          rw [contains_keys_iff, contains_keys_iff, hKnd.mem_erase_iff]
          tauto
        rw [List.countP_cons, if_pos hx, hcong,
          countP_contains_keys xs (K.erase x.job_id) hnd.2 (hKnd.erase _) hsub',
          List.length_erase_of_mem hxK]
        omega
      · have hsub' : ∀ k ∈ K, k ∈ xs.map Job.job_id := by
          intro k hk
          rcases List.mem_cons.1 (hsub k hk) with hk2 | hk2
          · subst hk2
            exact absurd (contains_keys_iff.2 hk) hx
          · exact hk2
        rw [List.countP_cons, if_neg hx,
          countP_contains_keys xs K hnd.2 hKnd hsub']
        omega

theorem length_victimsOf {s : Store} :
    (victimsOf s).length =
      min (s.length - max_history) (s.countP fun j => j.status.isTerminal) := by
  unfold victimsOf
  rw [List.length_take, (sortBy_perm pruneLe (removableOf s)).length_eq]
  unfold removableOf
  rw [← List.countP_eq_length_filter]

theorem keys_victimsOf_sub {s : Store} :
    ∀ k ∈ (victimsOf s).map Job.job_id, k ∈ s.map Job.job_id := by
  intro k hk
  rcases List.mem_map.1 hk with ⟨v, hv, rfl⟩
  exact List.mem_map_of_mem Job.job_id (mem_victimsOf hv).1

theorem countP_isEmpty_removable {s : Store}
    (h : (removableOf s).isEmpty = true) :
    s.countP (fun j => j.status.isTerminal) = 0 := by
  rw [List.countP_eq_length_filter]
  unfold removableOf at h
  rw [List.isEmpty_iff] at h
  rw [h]
  rfl

theorem prune_history_removed_count {s : Store}
    (hnd : (s.map Job.job_id).Nodup) (hover : max_history < s.length) :
    s.length - (prune_history s).length =
      min (s.countP fun j => j.status.isTerminal) (s.length - max_history) := by
  by_cases h2 : (removableOf s).isEmpty = true
  · rw [prune_history_eq_of_isEmpty h2, countP_isEmpty_removable h2]
    omega
  · rw [prune_history_eq_filter (by omega) h2]
    have hc : s.countP
        (fun j => ((victimsOf s).map Job.job_id).contains j.job_id) =
        ((victimsOf s).map Job.job_id).length :=
      countP_contains_keys s _ hnd (nodup_keys_victimsOf hnd) keys_victimsOf_sub
    have hsplit : s.length =
        s.countP (fun j => ((victimsOf s).map Job.job_id).contains j.job_id) +
        s.countP
          (fun j => ¬((victimsOf s).map Job.job_id).contains j.job_id = true) :=
      List.length_eq_countP_add_countP _ s
    have hcong : s.countP
        (fun j => !(((victimsOf s).map Job.job_id).contains j.job_id)) =
        s.countP
          (fun j => ¬((victimsOf s).map Job.job_id).contains j.job_id = true) := by
      apply List.countP_congr
      intro j _
      simp
    rw [← List.countP_eq_length_filter, hcong]
    rw [List.length_map, length_victimsOf] at hc
    have hle : s.countP (fun j => j.status.isTerminal) ≤ s.length :=
      List.countP_le_length _
    omega

theorem prune_history_removed_oldest {s : Store}
    (hnd : (s.map Job.job_id).Nodup) {j : Job} (hj : j ∈ s)
    (hout : j ∉ prune_history s) :
    j.status.isTerminal = true ∧
      ∀ k ∈ prune_history s, k.status.isTerminal = true → pruneLe j k = true := by
  by_cases h1 : s.length ≤ max_history
  · exact absurd ((prune_history_eq_of_le h1).symm ▸ hj) hout
  by_cases h2 : (removableOf s).isEmpty = true
  · exact absurd ((prune_history_eq_of_isEmpty h2).symm ▸ hj) hout
  rw [prune_history_eq_filter h1 h2] at hout ⊢
  have hcont : ((victimsOf s).map Job.job_id).contains j.job_id = true := by
    by_contra hc
    rw [Bool.not_eq_true] at hc
    exact hout (List.mem_filter.2 ⟨hj, by rw [hc]; rfl⟩)
  rcases List.mem_map.1 (contains_keys_iff.1 hcont) with ⟨v, hv, hvid⟩
  have hveq : v = j := List.inj_on_of_nodup_map hnd (mem_victimsOf hv).1 hj hvid
  subst hveq
  refine ⟨(mem_victimsOf hv).2, ?_⟩
  intro k hk hkterm
  have hkmem := List.mem_filter.1 hk
  have hkpred := hkmem.2
  have hkrem : k ∈ removableOf s := List.mem_filter.2 ⟨hkmem.1, hkterm⟩
  have hksorted : k ∈ sortBy pruneLe (removableOf s) :=
    ((sortBy_perm pruneLe (removableOf s)).mem_iff).2 hkrem
  have hknotv : k ∉ victimsOf s := by
    intro hkv
    have : ((victimsOf s).map Job.job_id).contains k.job_id = true :=
      contains_keys_iff.2 (List.mem_map_of_mem Job.job_id hkv)
    rw [this] at hkpred
    exact Bool.false_ne_true hkpred
  have hkdrop : k ∈ (sortBy pruneLe (removableOf s)).drop
      (s.length - max_history) := by
    have := (List.take_append_drop (s.length - max_history)
      (sortBy pruneLe (removableOf s))) ▸ hksorted
    rcases List.mem_append.1 this with hk1 | hk1
    · exact absurd hk1 hknotv
    · exact hk1
  have hpw : List.Pairwise (fun x y => pruneLe x y = true)
      (sortBy pruneLe (removableOf s)) :=
    @pairwise_sortBy Job pruneLe (fun _ _ _ hxy hyz => pruneLe_trans hxy hyz)
      pruneLe_total (removableOf s)
  have hpw2 := (List.take_append_drop (s.length - max_history)
      (sortBy pruneLe (removableOf s))) ▸ hpw
  exact (List.pairwise_append.1 hpw2).2.2 v hv k hkdrop

theorem activeCount_insertJob_le (j : Job) :
    ∀ s : Store, activeCount (insertJob s j) ≤ activeCount s + 1
  | [] => by
      simp only [insertJob, activeCount, List.countP_cons, List.countP_nil]
      split_ifs <;> omega
  | x :: xs => by
      by_cases h : x.job_id = j.job_id
      · rw [insertJob, if_pos h]
        simp only [activeCount, List.countP_cons]
        split_ifs <;> omega
      · rw [insertJob, if_neg h]
        have := activeCount_insertJob_le j xs
        simp only [activeCount, List.countP_cons] at *
        split_ifs <;> omega

theorem activeCount_try_add_le {s : Store} {j : Job} {limit : Nat}
    (h : activeCount s ≤ limit) :
    activeCount (try_add_with_capacity s j limit).2 ≤ limit := by
  unfold try_add_with_capacity
  by_cases hc : limit ≤ activeCount s
  · rw [if_pos hc]
    exact h
  · rw [if_neg hc]
    show activeCount (prune_history (insertJob s j)) ≤ limit
    have h1 := activeCount_prune_history_le (insertJob s j)
    have h2 := activeCount_insertJob_le j s
    omega

end JobStore

/-! ## Lemmas: the concrete fixtures -/

theorem toNat_charOfNat {n : Nat} (h : n < 55296) : (Char.ofNat n).toNat = n := by
  unfold Char.ofNat
  rw [dif_pos (Or.inl h)]
  rfl

theorem mkId_inj_of_lt {i k : Nat} (hi : i < 2000) (hk : k < 2000)
    (h : mkId i = mkId k) : i = k := by
  have hdata : [Char.ofNat (256 + i)] = [Char.ofNat (256 + k)] :=
    congrArg String.data h
  have hc : Char.ofNat (256 + i) = Char.ofNat (256 + k) :=
    (List.cons.injEq _ _ _ _ ▸ hdata).1
  have htn := congrArg Char.toNat hc
  rw [toNat_charOfNat (by omega), toNat_charOfNat (by omega)] at htn
  omega

theorem nodup_keys_range_store {n : Nat} (hn : n ≤ 2000) :
    (((List.range n).map mkQueuedJob).map Job.job_id).Nodup := by
  rw [List.map_map]
  have heq : (Job.job_id ∘ mkQueuedJob) = mkId := rfl
  rw [heq]
  refine List.Nodup.map_on ?_ (List.nodup_range n)
  intro i hi k hk h
  exact mkId_inj_of_lt (by have := List.mem_range.1 hi; omega)
    (by have := List.mem_range.1 hk; omega) h

theorem nodup_keys_store1000 : ((store1000.map Job.job_id)).Nodup :=
  nodup_keys_range_store (by omega)

theorem nodup_keys_store1001 : ((store1001.map Job.job_id)).Nodup :=
  nodup_keys_range_store (by omega)

theorem t_ne_mkId {i : Nat} (hi : i < 2000) : "t" ≠ mkId i := by
  intro h
  have hdata : ['t'] = [Char.ofNat (256 + i)] := congrArg String.data h
  have hc : ('t' : Char) = Char.ofNat (256 + i) :=
    (List.cons.injEq _ _ _ _ ▸ hdata).1
  have h1 : (116 : Nat) = (Char.ofNat (256 + i)).toNat :=
    congrArg Char.toNat hc
  rw [toNat_charOfNat (by omega)] at h1
  omega

theorem nodup_keys_store1000T : ((store1000T.map Job.job_id)).Nodup := by
  unfold store1000T
  rw [List.map_append]
  refine List.Nodup.append nodup_keys_store1000 (by simp [doneJobT]) ?_
  intro k hk1 hk2
  simp only [List.map_cons, List.map_nil, List.mem_cons, List.not_mem_nil,
    or_false] at hk2
  unfold store1000 at hk1
  rw [List.map_map] at hk1
  have heq : (Job.job_id ∘ mkQueuedJob) = mkId := rfl
  rw [heq] at hk1
  rcases List.mem_map.1 hk1 with ⟨i, hi, rfl⟩
  have hilt := List.mem_range.1 hi
  exact t_ne_mkId (by omega) hk2.symm

theorem length_store1000T : store1000T.length = 1001 := by
  simp [store1000T, store1000]

theorem length_store1001 : store1001.length = 1001 := by
  simp [store1001]

/-! ## Lemmas: isoformat round trip -/

theorem digitChar_spec {k : Nat} (hk : k < 10) :
    digitVal (digitChar k) = k ∧ (digitChar k).isDigit = true := by
  have h : ∀ m : Fin 10,
      digitVal (digitChar m.val) = m.val ∧ (digitChar m.val).isDigit = true := by
    decide
  exact h ⟨k, hk⟩

theorem parseFixed_zero (acc : Nat) (cs : List Char) :
    parseFixed 0 acc cs = some (acc, cs) := rfl

theorem parseFixed_cons (k acc : Nat) (c : Char) (cs : List Char) :
    parseFixed (k + 1) acc (c :: cs) =
      if c.isDigit then parseFixed k (acc * 10 + digitVal c) cs else none := rfl

theorem expect_cons (ch c : Char) (cs : List Char) :
    expect ch (c :: cs) = if c = ch then some cs else none := rfl

theorem parseFixed_pad2 {n : Nat} (hn : n < 100) (acc : Nat) (r : List Char) :
    parseFixed 2 acc (pad2 n ++ r) = some (acc * 100 + n, r) := by
  have h1 := @digitChar_spec (n / 10) (by omega)
  have h2 := @digitChar_spec (n % 10) (by omega)
  show parseFixed 2 acc (digitChar (n / 10) :: digitChar (n % 10) :: r) = _
  rw [parseFixed_cons, if_pos h1.2, parseFixed_cons, if_pos h2.2,
    parseFixed_zero, h1.1, h2.1]
  have harith : (acc * 10 + n / 10) * 10 + n % 10 = acc * 100 + n := by omega
  rw [harith]

theorem parseFixed_pad4 {n : Nat} (hn : n < 10000) (r : List Char) :
    parseFixed 4 0 (pad4 n ++ r) = some (n, r) := by
  have h1 := @digitChar_spec (n / 1000) (by omega)
  have h2 := @digitChar_spec (n / 100 % 10) (by omega)
  have h3 := @digitChar_spec (n / 10 % 10) (by omega)
  have h4 := @digitChar_spec (n % 10) (by omega)
  show parseFixed 4 0 (digitChar (n / 1000) :: digitChar (n / 100 % 10) ::
    digitChar (n / 10 % 10) :: digitChar (n % 10) :: r) = _
  rw [parseFixed_cons, if_pos h1.2, parseFixed_cons, if_pos h2.2,
    parseFixed_cons, if_pos h3.2, parseFixed_cons, if_pos h4.2,
    parseFixed_zero, h1.1, h2.1, h3.1, h4.1]
  have harith : (((0 * 10 + n / 1000) * 10 + n / 100 % 10) * 10 +
      n / 10 % 10) * 10 + n % 10 = n := by omega
  rw [harith]

theorem parseFixed_pad6 {n : Nat} (hn : n < 1000000) (r : List Char) :
    parseFixed 6 0 (pad6 n ++ r) = some (n, r) := by
  have h1 := @digitChar_spec (n / 100000) (by omega)
  have h2 := @digitChar_spec (n / 10000 % 10) (by omega)
  have h3 := @digitChar_spec (n / 1000 % 10) (by omega)
  have h4 := @digitChar_spec (n / 100 % 10) (by omega)
  have h5 := @digitChar_spec (n / 10 % 10) (by omega)
  have h6 := @digitChar_spec (n % 10) (by omega)
  show parseFixed 6 0 (digitChar (n / 100000) :: digitChar (n / 10000 % 10) ::
    digitChar (n / 1000 % 10) :: digitChar (n / 100 % 10) ::
    digitChar (n / 10 % 10) :: digitChar (n % 10) :: r) = _
  rw [parseFixed_cons, if_pos h1.2, parseFixed_cons, if_pos h2.2,
    parseFixed_cons, if_pos h3.2, parseFixed_cons, if_pos h4.2,
    parseFixed_cons, if_pos h5.2, parseFixed_cons, if_pos h6.2,
    parseFixed_zero, h1.1, h2.1, h3.1, h4.1, h5.1, h6.1]
  have harith : (((((0 * 10 + n / 100000) * 10 + n / 10000 % 10) * 10 +
      n / 1000 % 10) * 10 + n / 100 % 10) * 10 + n / 10 % 10) * 10 +
      n % 10 = n := by omega
  rw [harith]

theorem parseDatePart_iso {y mo dd : Nat} (hy : y < 10000) (hmo : mo < 100)
    (hdd : dd < 100) (r : List Char) :
    parseDatePart (pad4 y ++ '-' :: (pad2 mo ++ '-' :: (pad2 dd ++ r))) =
      some (y, mo, dd, r) := by
  unfold parseDatePart
  rw [parseFixed_pad4 hy]
  simp only [Option.bind_eq_bind, Option.some_bind, expect_cons, if_pos]
  rw [parseFixed_pad2 hmo]
  simp only [Option.some_bind, expect_cons, if_pos]
  rw [parseFixed_pad2 hdd]
  simp only [Option.some_bind]
  norm_num

theorem parseMicroPart_iso {us : Nat} (hus : us < 1000000) :
    parseMicroPart (if us = 0 then [] else '.' :: pad6 us) = some us := by
  by_cases h : us = 0
  · rw [if_pos h, h]
    rfl
  · rw [if_neg h]
    show (if '.' = '.' then
      match parseFixed 6 0 (pad6 us) with
      | some (us, []) => some us
      | _ => none else none) = some us
    rw [if_pos rfl, show pad6 us = pad6 us ++ [] by simp, parseFixed_pad6 hus]

theorem parseTimePart_iso {hh mi ss us : Nat} (hhh : hh < 100)
    (hmi : mi < 100) (hss : ss < 100) (hus : us < 1000000) :
    parseTimePart (pad2 hh ++ ':' :: (pad2 mi ++ ':' :: (pad2 ss ++
      (if us = 0 then [] else '.' :: pad6 us)))) = some (hh, mi, ss, us) := by
  unfold parseTimePart
  rw [parseFixed_pad2 hhh]
  simp only [Option.bind_eq_bind, Option.some_bind, expect_cons, if_pos]
  rw [parseFixed_pad2 hmi]
  simp only [Option.some_bind, expect_cons, if_pos]
  rw [parseFixed_pad2 hss]
  simp only [Option.some_bind, parseMicroPart_iso hus]
  norm_num

theorem daysInMonth_le (y m : Nat) : daysInMonth y m ≤ 31 := by
  unfold daysInMonth
  split_ifs <;> omega

theorem validB_bounds {d : DateTime} (hv : d.validB = true) :
    d.year < 10000 ∧ d.month < 100 ∧ d.day < 100 ∧ d.hour < 100 ∧
      d.minute < 100 ∧ d.second < 100 ∧ d.microsecond < 1000000 := by
  have hdm := daysInMonth_le d.year d.month
  simp only [DateTime.validB, Bool.and_eq_true, decide_eq_true_eq] at hv
  omega

theorem parseIsoChars_iso {d : DateTime} (hv : d.validB = true) :
    parseIsoChars d.isoChars = some d := by
  obtain ⟨h1, h2, h3, h4, h5, h6, h7⟩ := validB_bounds hv
  unfold parseIsoChars DateTime.isoChars
  rw [show pad4 d.year ++ '-' :: pad2 d.month ++ '-' :: pad2 d.day ++
      'T' :: pad2 d.hour ++ ':' :: pad2 d.minute ++ ':' :: pad2 d.second ++
      (if d.microsecond = 0 then [] else '.' :: pad6 d.microsecond) =
    pad4 d.year ++ '-' :: (pad2 d.month ++ '-' :: (pad2 d.day ++
      ('T' :: (pad2 d.hour ++ ':' :: (pad2 d.minute ++ ':' :: (pad2 d.second ++
      (if d.microsecond = 0 then [] else '.' :: pad6 d.microsecond))))))) from
    by simp, parseDatePart_iso h1 h2 h3]
  simp only [Option.bind_eq_bind, Option.some_bind, expect_cons, if_pos rfl,
    parseTimePart_iso h4 h5 h6 h7, hv, if_pos]

theorem fromisoformat_isoformat {d : DateTime} (hv : d.validB = true) :
    DateTime.fromisoformat d.isoformat = some d := by
  show parseIsoChars d.isoChars = some d
  exact parseIsoChars_iso hv

theorem parseOptDate_roundtrip {o : Option DateTime}
    (hv : o.all DateTime.validB = true) :
    parseOptDate (o.map DateTime.isoformat) = some o := by
  cases o with
  | none => rfl
  | some d =>
      simp only [Option.map_some', parseOptDate,
        fromisoformat_isoformat (by simpa using hv), Option.map_some']

theorem ofValue_value (st : JobStatus) : JobStatus.ofValue st.value = some st := by
  cases st <;> rfl

theorem from_dict_to_dict {j : Job} (hv : j.validTimesB = true) :
    Job.from_dict j.to_dict = some j := by
  simp only [Job.validTimesB, Bool.and_eq_true] at hv
  unfold Job.from_dict Job.to_dict
  simp only [parseOptDate_roundtrip hv.1.1, parseOptDate_roundtrip hv.1.2,
    parseOptDate_roundtrip hv.2, ofValue_value, Option.bind_eq_bind,
    Option.some_bind]

/-! ## Lemmas: disk scan and orchestrator -/

theorem load_metadata_fst_indep (id : String) (file : Option MetaDict)
    (s t : Store) :
    (JobStore.load_metadata id file s).1 = (JobStore.load_metadata id file t).1 := by
  cases file with
  | none => rfl
  | some md =>
      show (if md.job_id ≠ id then ((none : Option Job), s)
            else match Job.from_dict md with
                 | none => (none, s)
                 | some j => (some j, JobStore.add s j)).1 =
           (if md.job_id ≠ id then ((none : Option Job), t)
            else match Job.from_dict md with
                 | none => (none, t)
                 | some j => (some j, JobStore.add t j)).1
      by_cases hne : md.job_id ≠ id
      · rw [if_pos hne, if_pos hne]
      · rw [if_neg hne, if_neg hne]
        cases Job.from_dict md <;> rfl

/-- The candidate/success predicate of one scan step, evaluated against the
empty store (legitimate because a load's success does not depend on the
store). -/
def loadSucceeds (e : JobStore.DirEntry) : Bool :=
  e.isDir && (e.name.length == 36) &&
    (JobStore.load_metadata e.name e.meta []).1.isSome

theorem loadStep_eq (n : Nat) (s : Store) (e : JobStore.DirEntry) :
    JobStore.loadStep (n, s) e =
      if e.isDir && (e.name.length == 36) then
        match JobStore.load_metadata e.name e.meta s with
        | (some _, s') => (n + 1, s')
        | (none, s') => (n, s')
      else (n, s) := by
  unfold JobStore.loadStep
  by_cases hd : e.isDir
  · by_cases hl : e.name.length = 36
    · rw [if_neg (by simp [hd]), if_neg (by omega), if_pos (by simp [hd, hl])]
    · rw [if_neg (by simp [hd]), if_pos (by omega),
        if_neg (by simp [hl])]
  · rw [if_pos (by simp [hd]), if_neg (by simp [hd])]

theorem loadStep_count (entries : List JobStore.DirEntry) :
    ∀ (n : Nat) (s : Store),
      (entries.foldl JobStore.loadStep (n, s)).1 =
        n + entries.countP loadSucceeds := by
  induction entries with
  | nil => intro n s; simp
  | cons e es ih =>
      intro n s
      rw [List.foldl_cons, List.countP_cons, loadStep_eq]
      by_cases hc : e.isDir && (e.name.length == 36)
      · rw [if_pos hc]
        cases hload : JobStore.load_metadata e.name e.meta s with
        | mk fst snd =>
            have hind := load_metadata_fst_indep e.name e.meta s []
            rw [hload] at hind
            cases fst with
            | none =>
                have hp : loadSucceeds e = false := by
                  simp only [loadSucceeds, Bool.and_eq_false_iff]
                  right
                  rw [← hind]
                  rfl
                rw [ih, hp]
                simp
            | some j =>
                have hp : loadSucceeds e = true := by
                  simp only [loadSucceeds, Bool.and_eq_true]
                  refine ⟨by simpa using hc, ?_⟩
                  rw [← hind]
                  rfl
                rw [ih, hp]
                simp
                omega
      · rw [if_neg hc]
        have hp : loadSucceeds e = false := by
          unfold loadSucceeds
          rw [Bool.not_eq_true] at hc
          rw [hc]
          rfl
        rw [ih, hp]
        simp

theorem readFile_insertFile (dir : String) (md : MetaDict) :
    ∀ fs : Files, readFile (insertFile fs dir md) dir = some md
  | [] => by simp [insertFile, readFile, List.find?]
  | f :: fs => by
      by_cases h : f.1 = dir
      · simp [insertFile, h, readFile, List.find?]
      · rw [insertFile, if_neg h]
        have ih := readFile_insertFile dir md fs
        simp only [readFile, List.find?] at ih ⊢
        rw [decide_eq_false h]
        exact ih

namespace JobStore

theorem update_get_of_cap {s : Store} {id : String} {j : Job}
    (hget : get s id = some j) (hcap : s.length ≤ max_history)
    (u : UpdateFields) :
    (update s id u).2 = insertJob s (applyUpdate j u) ∧
    get (update s id u).2 id = some (applyUpdate j u) ∧
    (update s id u).2.length = s.length := by
  have hid : j.job_id = id := get_id hget
  have hkey : (applyUpdate j u).job_id ∈ s.map Job.job_id := by
    show j.job_id ∈ s.map Job.job_id
    exact List.mem_map_of_mem Job.job_id (get_mem hget)
  have hlen : (insertJob s (applyUpdate j u)).length = s.length :=
    length_insertJob_of_key_mem _ s hkey
  have hred : update s id u =
      (some (applyUpdate j u),
        prune_history (insertJob s (applyUpdate j u))) := by
    unfold update
    rw [hget]
  have hpr : prune_history (insertJob s (applyUpdate j u)) =
      insertJob s (applyUpdate j u) :=
    prune_history_eq_of_le (by omega)
  refine ⟨by rw [hred, hpr], ?_, by rw [hred, hpr]; exact hlen⟩
  rw [hred, hpr]
  have hself := get_insertJob_self (applyUpdate j u) s
  rwa [show (applyUpdate j u).job_id = id from hid] at hself

end JobStore

/-- The `except` branch of `process_separation_job` on a store at or under
the cap: the job becomes FAILED with the fault's description, stems
untouched, and its metadata file is written. -/
theorem failJob_spec (env : WorkerEnv) (job_id e : String) (s : Store)
    (fs : Files) {j : Job} {dir : String}
    (hget : JobStore.get s job_id = some j)
    (hcap : s.length ≤ JobStore.max_history) (hdir : j.output_dir = some dir) :
    JobStore.get (failJob env job_id e s fs).1 job_id =
      some (JobStore.applyUpdate j
        { status := some .failed, error_message := some e,
          completed_at := some env.completedAt }) ∧
    readFile (failJob env job_id e s fs).2 dir =
      some (JobStore.applyUpdate j
        { status := some .failed, error_message := some e,
          completed_at := some env.completedAt }).to_dict := by
  have h1 := JobStore.update_get_of_cap hget hcap
    { status := some .failed, error_message := some e,
      completed_at := some env.completedAt }
  refine ⟨h1.2.1, ?_⟩
  have hdir' : (JobStore.applyUpdate j
      { status := some .failed, error_message := some e,
        completed_at := some env.completedAt }).output_dir = some dir := hdir
  have hsave : JobStore.save_metadata (failJob env job_id e s fs).1 job_id =
      some (dir, (JobStore.applyUpdate j
        { status := some .failed, error_message := some e,
          completed_at := some env.completedAt }).to_dict) := by
    show JobStore.save_metadata (JobStore.update s job_id _).2 job_id = _
    simp [JobStore.save_metadata, h1.2.1, hdir']
  show readFile (save_metadata_fs (failJob env job_id e s fs).1 job_id fs) dir = _
  unfold save_metadata_fs
  rw [hsave]
  exact readFile_insertFile dir _ fs

/-! ## Claims -/

/-- Claim C2: for a fixed limit, any sequence of `try_add_with_capacity`
calls starting from a store whose QUEUED/PROCESSING count is at most the
limit keeps that count at or under the limit after every call. -/
theorem c2_capacity_invariant (limit : Nat) (js : List Job) (s : Store)
    (hstart : JobStore.activeCount s ≤ limit) :
    ∀ t ∈ JobStore.runTryAdds limit js s, JobStore.activeCount t ≤ limit := by
  induction js generalizing s with
  | nil => intro t ht; simp [JobStore.runTryAdds] at ht
  | cons j js ih =>
      intro t ht
      rw [JobStore.runTryAdds] at ht
      rcases List.mem_cons.1 ht with rfl | ht
      · exact JobStore.activeCount_try_add_le hstart
      · exact ih _ (JobStore.activeCount_try_add_le hstart) t ht

/-- Claim C2, witness: limit 1, two submissions into an empty store. -/
theorem c2_capacity_invariant_witness :
    JobStore.activeCount [] ≤ 1 ∧
    ∀ t ∈ JobStore.runTryAdds 1 [mkQueuedJob 0, mkQueuedJob 1] [],
      JobStore.activeCount t ≤ 1 :=
  ⟨by decide,
   c2_capacity_invariant 1 [mkQueuedJob 0, mkQueuedJob 1] [] (by decide)⟩

/-- Claim C1 (amended): `try_add_with_capacity(j, limit)` counts the stored
QUEUED/PROCESSING jobs; at or over the limit it returns `(false, count)`
leaving the store untouched; under the limit it inserts `j` under its id,
runs the eviction pass, and returns `(true, count)` — so `j` is present
afterwards whenever `j` is itself QUEUED or PROCESSING (the eviction pass can
remove a just-inserted terminal job when the store is over the history
cap). -/
theorem c1_try_add_with_capacity (s : Store) (j : Job) (limit : Nat)
    (hnd : (s.map Job.job_id).Nodup) :
    (JobStore.try_add_with_capacity s j limit).1.2 = JobStore.activeCount s ∧
    (limit ≤ JobStore.activeCount s →
      JobStore.try_add_with_capacity s j limit =
        ((false, JobStore.activeCount s), s)) ∧
    (JobStore.activeCount s < limit →
      (JobStore.try_add_with_capacity s j limit).1.1 = true ∧
      (j.status.isActive = true →
        JobStore.get (JobStore.try_add_with_capacity s j limit).2 j.job_id =
          some j)) := by
  unfold JobStore.try_add_with_capacity
  by_cases hc : limit ≤ JobStore.activeCount s
  · rw [if_pos hc]
    exact ⟨rfl, fun _ => rfl, fun h => absurd hc (by omega)⟩
  · rw [if_neg hc]
    refine ⟨rfl, fun h => absurd h hc, fun _ => ⟨rfl, fun ha => ?_⟩⟩
    exact JobStore.get_prune_history_of_active
      (JobStore.nodup_keys_insertJob j s hnd)
      (JobStore.get_insertJob_self j s) ha

/-- Claim C1, witness: one queued job in the store, limit 5, a queued job
admitted and stored. -/
theorem c1_try_add_with_capacity_witness :
    (([mkQueuedJob 0] : Store).map Job.job_id).Nodup ∧
    JobStore.activeCount [mkQueuedJob 0] < 5 ∧
    (JobStore.try_add_with_capacity [mkQueuedJob 0] (mkQueuedJob 1) 5).1.1 =
      true ∧
    JobStore.get
      (JobStore.try_add_with_capacity [mkQueuedJob 0] (mkQueuedJob 1) 5).2
      (mkQueuedJob 1).job_id = some (mkQueuedJob 1) := by
  have h := (c1_try_add_with_capacity [mkQueuedJob 0] (mkQueuedJob 1) 5
    (by decide)).2.2 (by decide)
  exact ⟨by decide, by decide, h.1, h.2 (by decide)⟩

set_option maxRecDepth 100000 in
set_option maxHeartbeats 4000000 in
/-- Claim C1, counterexample to the unamended claim: a store of 1000 QUEUED
jobs, limit 2000; admitting a COMPLETED job inserts it but the eviction pass
immediately removes it, so after the call returns `(true, 1000)` the job is
not stored. -/
theorem c1_counterexample :
    (JobStore.try_add_with_capacity store1000 doneJobX 2000).1 = (true, 1000) ∧
    JobStore.get (JobStore.try_add_with_capacity store1000 doneJobX 2000).2
      "x" = none :=
  ⟨rfl, rfl⟩

/-- Claim C4 (amended): whenever the eviction pass runs on a store over the
history cap — it is invoked by `add`, `try_add_with_capacity` and `update`,
though not by `delete` — it removes exactly `min(K, size - cap)` jobs where
`K` counts the COMPLETED/FAILED jobs, never removes a QUEUED/PROCESSING job,
and every removed job is terminal and sorts (by completion time, else
creation time) no later than every surviving terminal job. -/
theorem c4_prune_eviction (s : Store) (hnd : (s.map Job.job_id).Nodup)
    (hover : JobStore.max_history < s.length) :
    s.length - (JobStore.prune_history s).length =
      min (s.countP fun j => j.status.isTerminal)
        (s.length - JobStore.max_history) ∧
    (∀ j ∈ s, j.status.isActive = true → j ∈ JobStore.prune_history s) ∧
    (∀ j ∈ s, j ∉ JobStore.prune_history s → j.status.isTerminal = true ∧
      ∀ k ∈ JobStore.prune_history s, k.status.isTerminal = true →
        JobStore.pruneLe j k = true) :=
  ⟨JobStore.prune_history_removed_count hnd hover,
   fun _ hj ha => JobStore.mem_prune_history_of_active hnd hj ha,
   fun _ hj hout => JobStore.prune_history_removed_oldest hnd hj hout⟩

set_option maxRecDepth 100000 in
set_option maxHeartbeats 4000000 in
/-- Claim C4, witness: 1000 QUEUED jobs and one COMPLETED job (1001 > cap):
the pass removes exactly `min(1, 1) = 1` job. -/
theorem c4_prune_eviction_witness :
    JobStore.max_history < store1000T.length ∧
    store1000T.length - (JobStore.prune_history store1000T).length =
      min (store1000T.countP fun j => j.status.isTerminal)
        (store1000T.length - JobStore.max_history) :=
  ⟨by rw [length_store1000T]; decide,
   (c4_prune_eviction store1000T nodup_keys_store1000T
     (by rw [length_store1000T]; decide)).1⟩

set_option maxRecDepth 100000 in
set_option maxHeartbeats 4000000 in
/-- Claim C4, counterexample to the unamended claim ("after any mutating
registry call"): `delete` is a mutating call that does not trigger the
eviction pass; on a store of 1000 QUEUED jobs plus one COMPLETED job,
deleting a QUEUED job removes that active job while the terminal job — the
one the claim says would be evicted — survives. -/
theorem c4_counterexample :
    JobStore.max_history < store1000T.length ∧
    (JobStore.delete store1000T (mkId 3)).1 = true ∧
    JobStore.get (JobStore.delete store1000T (mkId 3)).2 (mkId 3) = none ∧
    JobStore.get (JobStore.delete store1000T (mkId 3)).2 "t" = some doneJobT :=
  ⟨by rw [length_store1000T]; decide, rfl, rfl, rfl⟩

/-- Claim C5 (amended): the eviction pass never removes a QUEUED/PROCESSING
job; explicit `delete(job_id)`, however, removes the record under that id
regardless of its status. -/
theorem c5_active_never_evicted (s : Store)
    (hnd : (s.map Job.job_id).Nodup) :
    (∀ j ∈ s, j.status.isActive = true → j ∈ JobStore.prune_history s) ∧
    ∀ id, JobStore.get (JobStore.delete s id).2 id = none ∧
      ∀ j ∈ s, j.job_id ≠ id → j ∈ (JobStore.delete s id).2 := by
  refine ⟨fun _ hj ha => JobStore.mem_prune_history_of_active hnd hj ha, ?_⟩
  intro id
  unfold JobStore.delete
  by_cases hp : (JobStore.get s id).isSome
  · rw [if_pos hp]
    constructor
    · unfold JobStore.get
      rw [List.find?_eq_none]
      intro x hx
      have := (List.mem_filter.1 hx).2
      simp only [Bool.not_eq_true'] at this
      simp [of_decide_eq_false this]
    · intro j hj hne
      exact List.mem_filter.2 ⟨hj, by simp [hne]⟩
  · rw [if_neg hp]
    rw [Option.not_isSome_iff_eq_none] at hp
    exact ⟨hp, fun j hj _ => hj⟩

/-- Claim C5, witness: a two-job store; the QUEUED job survives pruning, and
deleting an id removes exactly that record. -/
theorem c5_active_never_evicted_witness :
    (([queuedJobQ, doneJobT] : Store).map Job.job_id).Nodup ∧
    (queuedJobQ ∈ ([queuedJobQ, doneJobT] : Store) →
      queuedJobQ.status.isActive = true →
      queuedJobQ ∈ JobStore.prune_history [queuedJobQ, doneJobT]) ∧
    JobStore.get (JobStore.delete [queuedJobQ, doneJobT] "t").2 "t" = none := by
  have h := c5_active_never_evicted [queuedJobQ, doneJobT] (by decide)
  exact ⟨by decide, fun hm ha => h.1 queuedJobQ hm ha, (h.2 "t").1⟩

/-- Claim C5, counterexample to the claim as stated: explicit deletion does
destroy a job while its status is QUEUED — `delete` performs no status
check. -/
theorem c5_counterexample :
    queuedJobQ.status.isActive = true ∧
    (JobStore.delete [queuedJobQ] "q").1 = true ∧
    JobStore.get (JobStore.delete [queuedJobQ] "q").2 "q" = none := by
  refine ⟨by decide, by decide, by decide⟩

/-- Claim C10 (amended): when `j`'s id is already stored, `add(j)` (and an
admitting `try_add_with_capacity`, which performs the same insert) silently
replaces the old record in place and the job count never increases; the
replacement is observable afterwards provided the eviction pass does not
remove `j` itself, which can happen only when `j` is terminal and the store
exceeds the history cap. -/
theorem c10_add_replaces (s : Store) (j : Job) (old : Job)
    (hnd : (s.map Job.job_id).Nodup)
    (hold : JobStore.get s j.job_id = some old) :
    (JobStore.add s j).length ≤ s.length ∧
    ((j.status.isActive = true ∨ s.length ≤ JobStore.max_history) →
      JobStore.get (JobStore.add s j) j.job_id = some j) ∧
    (∀ limit, JobStore.activeCount s < limit →
      JobStore.try_add_with_capacity s j limit =
        ((true, JobStore.activeCount s), JobStore.add s j)) := by
  have hkey : j.job_id ∈ s.map Job.job_id := by
    rw [← JobStore.get_id hold]
    exact List.mem_map_of_mem Job.job_id (JobStore.get_mem hold)
  have hlen : (JobStore.insertJob s j).length = s.length :=
    JobStore.length_insertJob_of_key_mem j s hkey
  refine ⟨?_, ?_, ?_⟩
  · unfold JobStore.add
    have := (JobStore.prune_history_sublist (JobStore.insertJob s j)).length_le
    omega
  · rintro (ha | hcap)
    · exact JobStore.get_prune_history_of_active
        (JobStore.nodup_keys_insertJob j s hnd)
        (JobStore.get_insertJob_self j s) ha
    · unfold JobStore.add
      rw [JobStore.prune_history_eq_of_le (by omega)]
      exact JobStore.get_insertJob_self j s
  · intro limit hlim
    unfold JobStore.try_add_with_capacity JobStore.add
    rw [if_neg (by omega)]

/-- Claim C10, witness: replacing the record under an existing id in a small
store. -/
theorem c10_add_replaces_witness :
    (([mkQueuedJob 0, doneJobT] : Store).map Job.job_id).Nodup ∧
    JobStore.get ([mkQueuedJob 0, doneJobT] : Store) (mkQueuedJob 0).job_id =
      some (mkQueuedJob 0) ∧
    (JobStore.add [mkQueuedJob 0, doneJobT]
      { mkQueuedJob 0 with status := .processing }).length ≤ 2 ∧
    JobStore.get (JobStore.add [mkQueuedJob 0, doneJobT]
      { mkQueuedJob 0 with status := .processing }) (mkQueuedJob 0).job_id =
      some { mkQueuedJob 0 with status := .processing } := by
  have h := c10_add_replaces [mkQueuedJob 0, doneJobT]
    { mkQueuedJob 0 with status := .processing } (mkQueuedJob 0)
    (by decide) (by decide)
  exact ⟨by decide, by decide, h.1, h.2.1 (Or.inl (by decide))⟩

set_option maxRecDepth 100000 in
set_option maxHeartbeats 4000000 in
/-- Claim C10, counterexample to the unamended claim: in a 1001-job store of
QUEUED jobs (over the cap), replacing one of them with a COMPLETED job under
the same id lets the eviction pass remove that very record, so nothing is
stored under the id afterwards. -/
theorem c10_counterexample :
    JobStore.get store1001 (mkId 5) = some (mkQueuedJob 5) ∧
    JobStore.get (JobStore.add store1001 doneJobDup) (mkId 5) = none :=
  ⟨rfl, rfl⟩

/-- Claim C3: for a stored job with an output directory, `save_metadata`
writes `to_dict` of the record into that directory, and `load_metadata` of
that file into a fresh registry returns a record equal to the original in
every field (hence with the timestamp ordering preserved exactly) and
re-inserts it, the fresh registry holding exactly that record.  The
`validTimesB` hypothesis is the range invariant every Python `datetime`
carries by construction. -/
theorem c3_save_load_roundtrip (s : Store) (j : Job) (dir : String)
    (hget : JobStore.get s j.job_id = some j) (hdir : j.output_dir = some dir)
    (hv : j.validTimesB = true) :
    JobStore.save_metadata s j.job_id = some (dir, j.to_dict) ∧
    JobStore.load_metadata j.job_id (some j.to_dict) [] = (some j, [j]) := by
  have hadd : JobStore.add [] j = [j] := by
    unfold JobStore.add
    rw [show JobStore.insertJob [] j = [j] from rfl,
      JobStore.prune_history_eq_of_le (by simp [JobStore.max_history])]
  have hid : j.to_dict.job_id = j.job_id := rfl
  constructor
  · simp [JobStore.save_metadata, hget, hdir]
  · simp [JobStore.load_metadata, hid, from_dict_to_dict hv, hadd]

/-- Claim C3, witness: a fully populated COMPLETED record (all three
timestamps, one with microseconds, stems with one unavailable entry) survives
the save/load round trip field for field. -/
theorem c3_save_load_roundtrip_witness :
    JobStore.get [richJob] richJob.job_id = some richJob ∧
    richJob.output_dir = some "/data/output/x" ∧
    richJob.validTimesB = true ∧
    (JobStore.save_metadata [richJob] richJob.job_id =
      some ("/data/output/x", richJob.to_dict) ∧
    JobStore.load_metadata richJob.job_id (some richJob.to_dict) [] =
      (some richJob, [richJob])) :=
  ⟨by decide, by decide, by decide,
   c3_save_load_roundtrip [richJob] richJob "/data/output/x" (by decide)
     (by decide) (by decide)⟩

/-- Claim C8: a metadata file whose embedded `job_id` differs from the
requested id is rejected — `load_metadata` returns nothing and the registry
is untouched — and a successful load re-inserts exactly the reconstructed
record via `add`. -/
theorem c8_load_metadata_mismatch (job_id : String) (md : MetaDict)
    (s : Store) :
    (md.job_id ≠ job_id →
      JobStore.load_metadata job_id (some md) s = (none, s)) ∧
    ∀ j, (JobStore.load_metadata job_id (some md) s).1 = some j →
      Job.from_dict md = some j ∧
      (JobStore.load_metadata job_id (some md) s).2 = JobStore.add s j := by
  have hred : JobStore.load_metadata job_id (some md) s =
      (if md.job_id ≠ job_id then (none, s)
       else
         match Job.from_dict md with
         | none => (none, s)
         | some j => (some j, JobStore.add s j)) := rfl
  constructor
  · intro hne
    rw [hred, if_pos hne]
  · intro j hj
    rw [hred] at hj ⊢
    by_cases hne : md.job_id ≠ job_id
    · rw [if_pos hne] at hj
      exact absurd hj (by simp)
    · rw [if_neg hne] at hj ⊢
      cases hfd : Job.from_dict md with
      | none => rw [hfd] at hj; exact absurd hj (by simp)
      | some j' =>
          rw [hfd] at hj
          have hjj : j' = j := by simpa using hj
          subst hjj
          exact ⟨rfl, rfl⟩

/-- Claim C8, witness: a file embedding id `zName` requested under id "q" is
rejected with the registry unchanged; loaded under its own id it is
re-inserted. -/
theorem c8_load_metadata_mismatch_witness :
    zMeta.job_id ≠ "q" ∧
    JobStore.load_metadata "q" (some zMeta) [queuedJobQ] =
      (none, [queuedJobQ]) :=
  ⟨by decide,
   (c8_load_metadata_mismatch "q" zMeta [queuedJobQ]).1 (by decide)⟩

/-- Claim C9 (amended): `load_from_disk` enumerates only the immediate
entries of the root (returning 0 for a missing root), treats an entry as a
job candidate exactly when it is a directory whose name has length 36 — a
length heuristic, not a canonical-identifier-syntax check — attempts
`load_metadata` per candidate, skips per-candidate failures without
aborting, and returns exactly the number of candidates whose load
succeeded (a success being independent of the accumulated store). -/
theorem c9_load_from_disk (entries : List JobStore.DirEntry) (s : Store) :
    (JobStore.load_from_disk (some entries) s).1 =
      entries.countP loadSucceeds ∧
    JobStore.load_from_disk none s = (0, s) :=
  ⟨by have h := loadStep_count entries 0 s; simpa using h, rfl⟩

/-- Claim C9, counterexample to the claim as stated: a directory named with
36 `'z'`s is not in canonical identifier syntax, yet the scan treats it as a
candidate and counts its successful load — the source checks only
`len(job_id) != 36`. -/
theorem c9_counterexample :
    (JobStore.load_from_disk
      (some [{ name := zName, isDir := true, meta := some zMeta }]) []).1 = 1 ∧
    isCanonicalIdentifier zName = false := by
  exact ⟨by decide, by decide⟩

/-- Claim C7 (amended): on every snapshot that records GPU memory whenever
the GPU flag is set — all snapshots `detect_capabilities` produces —
`validate_model_for_system` returns a verdict, rejecting exactly the 6-stem
model without a GPU or with less than 7 GB of GPU memory and the fine-tuned
model without a GPU; the function is pure.  On the dataclass-expressible
snapshot with `has_gpu` set but no memory value the comparison `None < 7.0`
raises `TypeError` instead (modelled as `none`). -/
theorem c7_validate_model (model : String) (c : SystemCapabilities)
    (h : c.has_gpu = true → c.gpu_memory_gb ≠ none) :
    ∃ ok reason, validate_model_for_system model c = some (ok, reason) ∧
      (ok = false ↔
        (model = "htdemucs_6s" ∧ (c.has_gpu = false ∨
          ∃ m, c.gpu_memory_gb = some m ∧ m < 7)) ∨
        (model = "htdemucs_ft" ∧ c.has_gpu = false)) := by
  unfold validate_model_for_system
  by_cases hm : model = "htdemucs_6s"
  · rw [if_pos hm]
    by_cases hg : c.has_gpu = false
    · rw [if_pos hg]
      refine ⟨false, _, rfl, ?_⟩
      simp [hm, hg]
    · rw [if_neg hg]
      have hg' : c.has_gpu = true := by
        cases hcg : c.has_gpu
        · exact absurd hcg hg
        · rfl
      obtain ⟨m, hmem⟩ := Option.ne_none_iff_exists'.1 (h hg')
      rw [hmem]
      show ∃ ok reason,
        (if m < 7 then
            some ((false : Bool), some "6-stem model requires 7GB+ VRAM")
          else some (true, none)) = some (ok, reason) ∧
        (ok = false ↔
          (model = "htdemucs_6s" ∧ (c.has_gpu = false ∨
            ∃ m2, some m = some m2 ∧ m2 < 7)) ∨
          (model = "htdemucs_ft" ∧ c.has_gpu = false))
      by_cases hlt : m < 7
      · rw [if_pos hlt]
        refine ⟨false, _, rfl, ?_⟩
        constructor
        · intro
          exact Or.inl ⟨hm, Or.inr ⟨m, rfl, hlt⟩⟩
        · intro
          rfl
      · rw [if_neg hlt]
        refine ⟨true, none, rfl, ?_⟩
        constructor
        · intro hfalse
          exact absurd hfalse (by simp)
        · rintro (⟨_, hbad | ⟨m2, hm2, hlt2⟩⟩ | ⟨hft, _⟩)
          · rw [hg'] at hbad
            exact absurd hbad (by simp)
          · injection hm2 with hm2
            subst hm2
            exact absurd hlt2 hlt
          · rw [hm] at hft
            exact absurd hft (by decide)
  · rw [if_neg hm]
    by_cases hft : model = "htdemucs_ft" ∧ c.has_gpu = false
    · rw [if_pos hft]
      refine ⟨false, _, rfl, ?_⟩
      simp [hm, hft.1, hft.2]
    · rw [if_neg hft]
      refine ⟨true, none, rfl, ?_⟩
      constructor
      · intro hfalse
        exact absurd hfalse (by simp)
      · rintro (⟨h6, _⟩ | hft2)
        · exact absurd h6 hm
        · exact absurd hft2 hft

/-- Claim C7, witness: the 6.9 GB snapshot rejects the 6-stem model, the
7.0 GB snapshot accepts it, and the CPU-only snapshot rejects the fine-tuned
model — instantiating the amended theorem at the 6.9 GB snapshot. -/
theorem c7_validate_model_witness :
    (cap69.has_gpu = true → cap69.gpu_memory_gb ≠ none) ∧
    (∃ ok reason,
      validate_model_for_system "htdemucs_6s" cap69 = some (ok, reason) ∧
      (ok = false ↔
        ("htdemucs_6s" = "htdemucs_6s" ∧ (cap69.has_gpu = false ∨
          ∃ m, cap69.gpu_memory_gb = some m ∧ m < 7)) ∨
        ("htdemucs_6s" = "htdemucs_ft" ∧ cap69.has_gpu = false))) ∧
    (validate_model_for_system "htdemucs_6s" cap69).map Prod.fst =
      some false ∧
    (validate_model_for_system "htdemucs_6s" cap70).map Prod.fst =
      some true ∧
    (validate_model_for_system "htdemucs_ft" capCpu).map Prod.fst =
      some false := by
  have h69 : ((69 : ℚ) / 10) < 7 := by norm_num
  have h70 : ¬ ((7 : ℚ) < 7) := by norm_num
  refine ⟨fun _ => by simp [cap69], c7_validate_model "htdemucs_6s" cap69
    (fun _ => by simp [cap69]), ?_, ?_, ?_⟩
  · simp [validate_model_for_system, cap69, baseCaps, h69]
  · simp [validate_model_for_system, cap70, baseCaps, h70]
  · simp [validate_model_for_system, capCpu, baseCaps]

/-- Claim C7, counterexample to the claim as stated: the snapshot with
`has_gpu` set but `gpu_memory_gb = None` is accepted by nothing — the code
evaluates `None < 7.0` and raises `TypeError` (the `none` result), where the
claim demands acceptance (GPU present, memory not < 7 GB). -/
theorem c7_counterexample :
    capNoMem.has_gpu = true ∧
    validate_model_for_system "htdemucs_6s" capNoMem = none :=
  ⟨rfl, rfl⟩

/-- Claim C6 (amended): on a registry at or below the history cap, an
admitted QUEUED job whose worker construction or invocation faults with
description `e` transitions QUEUED → PROCESSING → FAILED, ends with
`error_message` equal to `e` (hence non-empty whenever the fault's
description is non-empty), keeps `stems` unset, and has its metadata file
written despite the failure; `process_separation_job` is a total function —
the fault never escapes it. -/
theorem c6_worker_fault (env : WorkerEnv) (job_id : String) (s : Store)
    (fs : Files) (j : Job) (dir : String) (e : String)
    (hget : JobStore.get s job_id = some j) (hq : j.status = .queued)
    (hst : j.stems = none) (hdir : j.output_dir = some dir)
    (hcap : s.length ≤ JobStore.max_history)
    (hfault : env.initResult = .error e ∨
      (env.initResult = .ok () ∧ env.sepResult = .error e)) :
    (JobStore.get (markProcessing env job_id s) job_id).map Job.status =
      some .processing ∧
    ∃ jf, JobStore.get (process_separation_job env job_id s fs).1 job_id =
        some jf ∧
      jf.status = .failed ∧ jf.error_message = some e ∧ jf.stems = none ∧
      readFile (process_separation_job env job_id s fs).2 dir =
        some jf.to_dict := by
  have h1 := JobStore.update_get_of_cap hget hcap
    { status := some .processing, started_at := some env.startedAt,
      progress := some (1 / 10) }
  have hs1get : JobStore.get (markProcessing env job_id s) job_id =
      some (JobStore.applyUpdate j
        { status := some .processing, started_at := some env.startedAt,
          progress := some (1 / 10) }) := h1.2.1
  have hs1len : (markProcessing env job_id s).length = s.length := h1.2.2
  have hs1dir : (JobStore.applyUpdate j
      { status := some .processing, started_at := some env.startedAt,
        progress := some (1 / 10) }).output_dir = some dir := hdir
  refine ⟨by rw [hs1get]; rfl, ?_⟩
  rcases hfault with hfa | ⟨hok, hsep⟩
  · have hproc : process_separation_job env job_id s fs =
        failJob env job_id e (markProcessing env job_id s) fs := by
      simp only [process_separation_job, hs1get, hfa]
    have hf := failJob_spec env job_id e (markProcessing env job_id s) fs
      hs1get (by omega) hs1dir
    rw [hproc]
    exact ⟨_, hf.1, rfl, rfl, hst, hf.2⟩
  · have h2 := JobStore.update_get_of_cap hs1get (by omega)
      { progress := some (2 / 10) }
    have hs2get := h2.2.1
    have hs2len : ((JobStore.update (markProcessing env job_id s) job_id
        { progress := some (2 / 10) }).2).length = s.length := by
      rw [h2.2.2, hs1len]
    have hs2dir : (JobStore.applyUpdate (JobStore.applyUpdate j
        { status := some .processing, started_at := some env.startedAt,
          progress := some (1 / 10) })
        { progress := some (2 / 10) }).output_dir = some dir := hdir
    have hproc : process_separation_job env job_id s fs =
        failJob env job_id e
          (JobStore.update (markProcessing env job_id s) job_id
            { progress := some (2 / 10) }).2 fs := by
      simp only [process_separation_job, hs1get, hok, hsep]
    have hf := failJob_spec env job_id e
      (JobStore.update (markProcessing env job_id s) job_id
        { progress := some (2 / 10) }).2 fs hs2get (by omega) hs2dir
    rw [hproc]
    exact ⟨_, hf.1, rfl, rfl, hst, hf.2⟩

/-- Claim C6, witness: a queued job in a one-job registry whose worker
construction faults with a non-empty description. -/
theorem c6_worker_fault_witness :
    JobStore.get [queuedJobQ] "q" = some queuedJobQ ∧
    queuedJobQ.status = .queued ∧ queuedJobQ.stems = none ∧
    queuedJobQ.output_dir = some "/data/output/q" ∧
    (JobStore.get (markProcessing (faultingEnv "worker exploded") "q"
      [queuedJobQ]) "q").map Job.status = some .processing ∧
    ∃ jf, JobStore.get (process_separation_job (faultingEnv "worker exploded")
        "q" [queuedJobQ] []).1 "q" = some jf ∧
      jf.status = .failed ∧ jf.error_message = some "worker exploded" ∧
      jf.stems = none ∧
      readFile (process_separation_job (faultingEnv "worker exploded") "q"
        [queuedJobQ] []).2 "/data/output/q" = some jf.to_dict := by
  have h := c6_worker_fault (faultingEnv "worker exploded") "q" [queuedJobQ]
    [] queuedJobQ "/data/output/q" "worker exploded" (by decide) (by decide)
    (by decide) (by decide) (by decide) (Or.inl rfl)
  exact ⟨by decide, by decide, by decide, by decide, h.1, h.2⟩

/-- Claim C6, counterexample to the unamended claim ("error description ends
up non-empty"): a fault whose textual description is the empty string — e.g.
`raise RuntimeError()` inside the worker — leaves `error_message` equal to
the empty string. -/
theorem c6_counterexample :
    (faultingEnv "").initResult = Except.error "" ∧
    (JobStore.get (process_separation_job (faultingEnv "") "q" [queuedJobQ]
      []).1 "q").map Job.error_message = some (some "") ∧
    ("" : String).length = 0 := by
  exact ⟨rfl, rfl, rfl⟩

end Unlayered
